import Mathlib

/-!
# BBS terminal client: relay and shutdown coordination

A shallow embedding of `main` in `src/main.go`.  After the websocket has been
dialled, `main` starts two goroutines and then runs a `select` loop:

* the websocket read goroutine (lines 65-79) reads messages from the connection
  and writes them to standard output; on a read error it returns, running its
  deferred calls `wg.Done()`, `close(done)`, `cancelStdin()` in that order;
* the stdin goroutine (lines 82-109) puts the terminal into raw mode, reads up to
  256 bytes at a time and hands each chunk to the `stdin` channel unless the
  context `stdinContext` is already cancelled;
* the main loop (lines 113-135) is the only writer on the connection.

The three threads of control are modelled by program counters in one state, and
an execution is a list of atomic actions (an interleaving).  Whatever the
environment decides (the result of a read, of a write, of `MakeRaw`, the arrival
of an interrupt signal) is carried by the action.
-/

namespace BBS

/-- One byte of payload. -/
abbrev Byte := Fin 256

/-- A byte string (`[]byte`, or a Go `string` seen as its bytes). -/
abbrev Bytes := List Byte

/-- The saved terminal mode returned by `terminal.MakeRaw` (`*terminal.State`). -/
abbrev TermState := Nat

/-- A message handed to `c.WriteMessage`. -/
inductive Frame where
  /-- The call `c.WriteMessage(websocket.TextMessage, payload)`. -/
  | text (payload : Bytes)
  /-- The call `c.WriteMessage(websocket.CloseMessage, FormatCloseMessage(code, reason))`. -/
  | close (code : Nat) (reason : Bytes)
  deriving DecidableEq

/-- The constant `websocket.CloseNormalClosure`. -/
def CloseNormalClosure : Nat := 1000

/-- The close message of line 126. -/
def closeFrame : Frame := Frame.close CloseNormalClosure []

/-- Calls that change the mode of the terminal. -/
inductive TermOp where
  /-- A successful `terminal.MakeRaw`, which returned the previous mode `h`. -/
  | makeRaw (h : TermState)
  /-- The call `terminal.Restore(fd, h)`. -/
  | restore (h : TermState)
  deriving DecidableEq

/-- The lines the program logs. -/
inductive LogEntry where
  /-- Line 73, `read:`. -/
  | connRead
  /-- Line 87, `failed to set raw mode for stdin` (fatal). -/
  | rawMode
  /-- Line 97, `failed to read stdin`. -/
  | stdinRead
  /-- Line 121, `failed to write to websocket`. -/
  | wsWrite
  /-- Line 124, `received interrupt, terminating cleanly...`. -/
  | interrupt
  /-- Line 128, `failed to close websocket`. -/
  | wsClose
  deriving DecidableEq

/-- Program counter of the websocket read goroutine (lines 65-79). -/
inductive ReaderPC where
  /-- About to call `c.ReadMessage()` (line 71). -/
  | readMessage
  /-- About to call `os.Stdout.Write(message)` (line 77). -/
  | write (message : Bytes)
  /-- Returning: deferred `wg.Done()` (line 68) is next. -/
  | wgDone
  /-- Returning: deferred `close(done)` (line 67) is next. -/
  | closeDone
  /-- Returning: deferred `cancelStdin()` (line 66) is next. -/
  | cancelStdin
  /-- The goroutine has ended. -/
  | exited
  deriving DecidableEq

/-- Program counter of the stdin goroutine (lines 82-109). -/
inductive InputPC where
  /-- About to call `terminal.MakeRaw` (line 85). -/
  | makeRaw
  /-- About to call `os.Stdin.Read(buffer)` (line 95). -/
  | read
  /-- At the `select` of line 101, after a read of `n` bytes. -/
  | poll (n : Nat)
  /-- Blocked in `stdin <- string(buffer[:n])` (line 106). -/
  | send (chunk : Bytes)
  /-- About to call `close(stdin)` (line 103). -/
  | closeStdin
  /-- Returning: deferred `terminal.Restore` (line 91) is next. -/
  | restore
  /-- Returning: deferred `wg.Done()` (line 83) is next. -/
  | wgDone
  /-- The goroutine has ended. -/
  | exited
  /-- The call `log.Fatal` of line 87 has ended the process. -/
  | fatal
  deriving DecidableEq

/-- Program counter of the main goroutine (lines 113-136). -/
inductive MainPC where
  /-- At the `select` of line 115. -/
  | select
  /-- About to call `c.WriteMessage(websocket.TextMessage, []byte(buf))` (line 119). -/
  | writeText (buf : Bytes)
  /-- About to call `c.WriteMessage(websocket.CloseMessage, ...)` (line 126). -/
  | writeClose
  /-- In `wg.Wait()` (line 135). -/
  | wgWait
  /-- The function `main` has returned: the process has ended. -/
  | returned
  deriving DecidableEq

/-- The state of the program once the connection is established. -/
structure State where
  /-- The websocket read goroutine. -/
  reader : ReaderPC
  /-- The stdin goroutine. -/
  input : InputPC
  /-- The main goroutine. -/
  main : MainPC
  /-- Whether the channel `done` is closed. -/
  done : Bool
  /-- Whether the channel `stdin` is closed. -/
  stdinClosed : Bool
  /-- Whether `stdinContext` is cancelled. -/
  stdinContext : Bool
  /-- Whether the one-slot channel `interrupt` holds a signal. -/
  interrupt : Bool
  /-- The counter of the wait group `wg`. -/
  wg : Nat
  /-- The 256-byte read buffer of line 93. -/
  buffer : Bytes
  /-- The local variable `termState` of the stdin goroutine. -/
  termState : Option TermState
  /-- The messages passed to `c.WriteMessage`, oldest first. -/
  wire : List Frame
  /-- The bytes passed to `os.Stdout.Write`. -/
  stdout : Bytes
  /-- The terminal mode changes, oldest first. -/
  terminal : List TermOp
  /-- The values the main loop took from a sender on the channel `stdin`. -/
  forwarded : List Bytes
  /-- The lines logged. -/
  log : List LogEntry
  deriving DecidableEq

/-- The atomic actions of an execution. -/
inductive Action where
  /-- The call `c.ReadMessage()` returns: a message type and payload, or an error. -/
  | connRead (r : Option (Nat × Bytes))
  /-- The call `os.Stdout.Write(message)`. -/
  | stdoutWrite
  /-- The deferred `wg.Done()` of the websocket read goroutine. -/
  | readerWgDone
  /-- The deferred `close(done)`. -/
  | closeDone
  /-- The deferred `cancelStdin()`. -/
  | cancelStdin
  /-- The call `terminal.MakeRaw` returns: the previous mode, or an error. -/
  | makeRaw (r : Option TermState)
  /-- The call `os.Stdin.Read(buffer)` returns, having read `data`, with or without an error. -/
  | stdinRead (data : Bytes) (err : Bool)
  /-- The `select` of line 101 is evaluated. -/
  | pollContext
  /-- The call `close(stdin)`. -/
  | closeStdin
  /-- The deferred `terminal.Restore`. -/
  | restore
  /-- The deferred `wg.Done()` of the stdin goroutine. -/
  | inputWgDone
  /-- The main `select` takes `case <-done`. -/
  | recvDone
  /-- The main `select` takes `case buf := <-stdin`. -/
  | recvStdin
  /-- The main `select` takes `case <-interrupt`. -/
  | recvInterrupt
  /-- The pending `c.WriteMessage` call is made and returns (`ok` is `err == nil`). -/
  | writeMessage (ok : Bool)
  /-- The call `wg.Wait()` returns. -/
  | wgWait
  /-- The operating system delivers `os.Interrupt`. -/
  | sigint
  deriving DecidableEq

/-- The buffer of line 93, `make([]byte, 256)`. -/
def emptyBuffer : Bytes := List.replicate 256 0

/-- The state when the goroutines have been started (line 111): `wg.Add(2)` is done,
the channels are open and empty, the buffer is 256 zero bytes. -/
def init : State :=
  { reader := .readMessage, input := .makeRaw, main := .select,
    done := false, stdinClosed := false, stdinContext := false, interrupt := false,
    wg := 2, buffer := emptyBuffer, termState := none,
    wire := [], stdout := [], terminal := [], forwarded := [], log := [] }

/-- The process has ended: `main` returned, or `log.Fatal` called `os.Exit`. -/
def State.halted (s : State) : Bool :=
  s.main == .returned || s.input == .fatal

/-- One atomic action, or `none` when the action cannot happen in this state. -/
def step (s : State) (a : Action) : Option State :=
  if s.halted then none else
  match a with
  | .connRead r =>
    match s.reader, r with
    | .readMessage, some (_, message) => some { s with reader := .write message }
    | .readMessage, none =>
      some { s with reader := .wgDone, log := s.log ++ [.connRead] }
    | _, _ => none
  | .stdoutWrite =>
    match s.reader with
    | .write message => some { s with reader := .readMessage, stdout := s.stdout ++ message }
    | _ => none
  | .readerWgDone =>
    match s.reader with
    | .wgDone => some { s with reader := .closeDone, wg := s.wg - 1 }
    | _ => none
  | .closeDone =>
    match s.reader with
    | .closeDone => some { s with reader := .cancelStdin, done := true }
    | _ => none
  | .cancelStdin =>
    match s.reader with
    | .cancelStdin => some { s with reader := .exited, stdinContext := true }
    | _ => none
  | .makeRaw r =>
    match s.input, r with
    | .makeRaw, some h =>
      some { s with input := .read, termState := some h,
                    terminal := s.terminal ++ [.makeRaw h] }
    | .makeRaw, none => some { s with input := .fatal, log := s.log ++ [.rawMode] }
    | _, _ => none
  | .stdinRead data err =>
    match s.input with
    | .read =>
      let n := min data.length 256
      let buffer := data.take n ++ s.buffer.drop n
      if err then some { s with buffer := buffer, log := s.log ++ [.stdinRead] }
      else some { s with buffer := buffer, input := .poll n }
    | _ => none
  | .pollContext =>
    match s.input with
    | .poll n =>
      if s.stdinContext then some { s with input := .closeStdin }
      else some { s with input := .send (s.buffer.take n) }
    | _ => none
  | .closeStdin =>
    match s.input with
    | .closeStdin => some { s with input := .restore, stdinClosed := true }
    | _ => none
  | .restore =>
    match s.input, s.termState with
    | .restore, some h =>
      some { s with input := .wgDone, terminal := s.terminal ++ [.restore h] }
    | _, _ => none
  | .inputWgDone =>
    match s.input with
    | .wgDone => some { s with input := .exited, wg := s.wg - 1 }
    | _ => none
  | .recvDone =>
    match s.main with
    | .select => if s.done then some { s with main := .returned } else none
    | _ => none
  | .recvStdin =>
    match s.main with
    | .select =>
      match s.input with
      | .send chunk =>
        some { s with main := .writeText chunk, input := .read,
                      forwarded := s.forwarded ++ [chunk] }
      | _ => if s.stdinClosed then some { s with main := .writeText [] } else none
    | _ => none
  | .recvInterrupt =>
    match s.main with
    | .select =>
      if s.interrupt then
        some { s with main := .writeClose, interrupt := false, log := s.log ++ [.interrupt] }
      else none
    | _ => none
  | .writeMessage ok =>
    match s.main with
    | .writeText buf =>
      some { s with main := .select, wire := s.wire ++ [.text buf],
                    log := if ok then s.log else s.log ++ [.wsWrite] }
    | .writeClose =>
      if ok then some { s with main := .returned, wire := s.wire ++ [closeFrame] }
      else some { s with main := .wgWait, wire := s.wire ++ [closeFrame],
                         log := s.log ++ [.wsClose] }
    | _ => none
  | .wgWait =>
    match s.main with
    | .wgWait => if s.wg = 0 then some { s with main := .returned } else none
    | _ => none
  | .sigint => some { s with interrupt := true }

/-- Run a list of actions from a state; `none` when one of them cannot happen. -/
def run (s : State) : List Action → Option State
  | [] => some s
  | a :: as => (step s a).bind (fun s' => run s' as)

/-- Whether a message is a close message. -/
def Frame.isClose : Frame → Bool
  | .text _ => false
  | .close _ _ => true

/-- The payloads of the text messages among the messages written. -/
def textPayloads : List Frame → List Bytes
  | [] => []
  | .text payload :: fs => payload :: textPayloads fs
  | .close _ _ :: fs => textPayloads fs

/-- The chunks returned by the successful calls of `os.Stdin.Read` in an execution:
each is what the call put at the start of the 256-byte buffer. -/
def chunksRead : List Action → List Bytes
  | [] => []
  | .stdinRead data false :: as => data.take 256 :: chunksRead as
  | _ :: as => chunksRead as

/-- The payloads returned by the successful calls of `c.ReadMessage` in an execution. -/
def received : List Action → List Bytes
  | [] => []
  | .connRead (some (_, message)) :: as => message :: received as
  | _ :: as => received as

/-- An action that interrupts or ends the session: an interrupt signal, or a read
error on the connection (which leads to `close(done)` and `cancelStdin()`). -/
def Action.stops : Action → Bool
  | .sigint => true
  | .connRead none => true
  | _ => false

/-- An execution without interrupt signal and without read error on the connection. -/
def undisturbed (as : List Action) : Bool := as.all (fun a => !a.stops)

/-- The chunk the main loop has taken from `stdin` and not yet written. -/
def mainPending : MainPC → List Bytes
  | .writeText buf => [buf]
  | _ => []

/-- The chunk the stdin goroutine has read and not yet handed over. -/
def inputPending (buffer : Bytes) : InputPC → List Bytes
  | .poll n => [buffer.take n]
  | .send chunk => [chunk]
  | _ => []

/-- The message the websocket read goroutine has read and not yet written out. -/
def readerPending : ReaderPC → Bytes
  | .write message => message
  | _ => []

/-- The actions by which a sequence of results of `os.Stdin.Read` is worked off when
nothing else happens: a failed read is one action; a successful read is followed by
the poll of the context, the hand-over to the main loop and the write. -/
def feed : List (Bytes × Bool) → List Action
  | [] => []
  | (data, true) :: rs => .stdinRead data true :: feed rs
  | (data, false) :: rs =>
    .stdinRead data false :: .pollContext :: .recvStdin :: .writeMessage true :: feed rs

/-- The chunks of the successful reads among a sequence of read results. -/
def okChunks : List (Bytes × Bool) → List Bytes
  | [] => []
  | (_, true) :: rs => okChunks rs
  | (data, false) :: rs => data.take 256 :: okChunks rs

/-- The messages written so far are text messages only. -/
def textOnly (fs : List Frame) : Prop := ∃ ds : List Bytes, fs = ds.map Frame.text

/-- The messages written so far are text messages, then possibly the close message. -/
def closeLast (fs : List Frame) : Prop :=
  ∃ ds : List Bytes, fs = ds.map Frame.text ∨ fs = ds.map Frame.text ++ [closeFrame]

/-- While the main loop can still write, no close message has been written. -/
def WireInv (s : State) : Prop :=
  closeLast s.wire ∧
    (s.main = .select ∨ (∃ b, s.main = .writeText b) ∨ s.main = .writeClose → textOnly s.wire)

/-- An interrupt arrives while a chunk is being written; the close message is written
and accepted. -/
def interruptedSession : List Action :=
  [.makeRaw (some 7), .stdinRead [104, 105] false, .pollContext, .recvStdin, .sigint,
   .writeMessage true, .recvInterrupt, .writeMessage true]

/-- In an undisturbed execution nothing is cancelled or closed, and every chunk read is
written, about to be written, or about to be handed over, in the order of the reads. -/
def PipeInv (as : List Action) (s : State) : Prop :=
  undisturbed as = true →
    s.stdinContext = false ∧ s.stdinClosed = false ∧ s.interrupt = false ∧ s.done = false ∧
    (s.reader = .readMessage ∨ ∃ m, s.reader = .write m) ∧
    (s.main = .select ∨ ∃ b, s.main = .writeText b) ∧
    (s.input = .makeRaw ∨ s.input = .read ∨ (∃ n, s.input = .poll n) ∨
      (∃ c, s.input = .send c) ∨ s.input = .fatal) ∧
    chunksRead as = textPayloads s.wire ++ (mainPending s.main ++ inputPending s.buffer s.input)

/-- Standard output holds the payloads received, but for the one about to be written. -/
def StreamInv (as : List Action) (s : State) : Prop :=
  (received as).flatten = s.stdout ++ readerPending s.reader ∧
    (Action.connRead none ∈ as → s.reader ≠ .readMessage ∧ ∀ m, s.reader ≠ .write m)

/-- Scenario B: the chunks `a`, `b`, `c`. -/
def scenarioB : List Bytes := [[97], [98], [99]]

/-- Scenario A: the payload `hello` arrives, then the connection fails. -/
def scenarioA : List Action :=
  [.connRead (some (1, [104, 101, 108, 108, 111])), .stdoutWrite, .connRead none]

/-- The context is cancelled exactly when the websocket read goroutine has ended, and
`done` is closed exactly when that goroutine has got past its `close(done)`. -/
def CancelInv (s : State) : Prop :=
  (s.stdinContext = true ↔ s.reader = .exited) ∧
    (s.done = true ↔ s.reader = .cancelStdin ∨ s.reader = .exited)

/-- The terminal mode changes that belong to each place of the stdin goroutine. -/
def TermInv (s : State) : Prop :=
  match s.input with
  | .makeRaw => s.terminal = [] ∧ s.termState = none
  | .fatal => s.terminal = [] ∧ s.termState = none
  | .wgDone => ∃ h, s.termState = some h ∧ s.terminal = [.makeRaw h, .restore h]
  | .exited => ∃ h, s.termState = some h ∧ s.terminal = [.makeRaw h, .restore h]
  | _ => ∃ h, s.termState = some h ∧ s.terminal = [.makeRaw h]

/-- The terminal mode changes, tied to the result of `terminal.MakeRaw` in the execution. -/
def RawInv (as : List Action) (s : State) : Prop :=
  TermInv s ∧ (∀ h, Action.makeRaw (some h) ∈ as → s.termState = some h) ∧
    (Action.makeRaw none ∈ as → s.input = .fatal)

/-- Scenario D: the connection fails and the websocket read goroutine closes `done`. -/
def remoteClosed : List Action :=
  [.makeRaw (some 7), .connRead none, .readerWgDone, .closeDone]

/-- An interrupt arrives and the close message is accepted by the connection. -/
def interruptAccepted : List Action :=
  [.makeRaw (some 7), .sigint, .recvInterrupt, .writeMessage true]

/-- The stdin goroutine runs to its end: a chunk is handed over and written, the
connection fails, the context is cancelled, and the next chunk read finds it
cancelled. -/
def inputExits : List Action :=
  [.makeRaw (some 7), .stdinRead [97] false, .pollContext, .recvStdin, .writeMessage true,
   .connRead none, .readerWgDone, .closeDone, .cancelStdin,
   .stdinRead [98] false, .pollContext, .closeStdin, .restore, .inputWgDone]

/-- The state after a successful `terminal.MakeRaw` that returned the mode 7. -/
def rawState : State :=
  { init with input := .read, termState := some 7, terminal := [.makeRaw 7] }

/-- Scenario E: a read of standard input fails, the next one returns the chunk `a`. -/
def scenarioE : List (Bytes × Bool) := [([], true), ([97], false)]

/-- A chunk is handed to the main loop and its write is pending; the next chunk waits. -/
def writePending : List Action :=
  [.makeRaw (some 7), .stdinRead [97] false, .pollContext, .recvStdin,
   .stdinRead [98] false, .pollContext]

/-- An interrupt is taken by the main loop, then a chunk is read and the context polled. -/
def interruptThenPoll : List Action :=
  [.makeRaw (some 7), .sigint, .recvInterrupt, .stdinRead [97] false, .pollContext]

/-- While the write of the chunk `a` is pending the connection fails, the context is
cancelled, and the stdin goroutine, having read `b`, closes the channel `stdin`;
then the pending write returns. -/
def stdinClosedDuringWrite : List Action :=
  [.makeRaw (some 7), .stdinRead [97] false, .pollContext, .recvStdin,
   .connRead none, .readerWgDone, .closeDone, .cancelStdin,
   .stdinRead [98] false, .pollContext, .closeStdin, .writeMessage true]

/-- The actions by which a sequence of messages arriving on the connection is worked
off when nothing else happens: each successful `c.ReadMessage` is followed by its
`os.Stdout.Write`. -/
def deliver : List (Nat × Bytes) → List Action
  | [] => []
  | m :: ms => .connRead (some m) :: .stdoutWrite :: deliver ms

/-- Two messages, a text message `hello` and a binary message `!`. -/
def twoMessages : List (Nat × Bytes) := [(1, [104, 101, 108, 108, 111]), (2, [33])]

/-- Without a read error on the connection the context is never cancelled and the stdin
goroutine never leaves its loop. -/
def HealthyInv (as : List Action) (s : State) : Prop :=
  Action.connRead none ∉ as →
    (s.reader = .readMessage ∨ ∃ m, s.reader = .write m) ∧ s.stdinContext = false ∧
    (s.input = .makeRaw ∨ s.input = .read ∨ (∃ n, s.input = .poll n) ∨
      (∃ c, s.input = .send c) ∨ s.input = .fatal)

/-- The main loop has left its `select` for good and takes no chunk any more. -/
def ReceivesNoMore (s0 s : State) : Prop :=
  (s.main = .writeClose ∨ s.main = .wgWait ∨ s.main = .returned) ∧
    s.forwarded = s0.forwarded ∧ ∀ c, s0.input = .send c → s.input = .send c

/-! ## Executions -/

theorem run_append (s : State) (as bs : List Action) :
    run s (as ++ bs) = (run s as).bind (fun s' => run s' bs) := by
  induction as generalizing s with
  | nil => simp [run]
  | cons a as ih =>
    simp only [List.cons_append, run]
    cases h : step s a <;> simp [ih]

theorem run_snoc (s s' : State) (as : List Action) (a : Action) :
    run s (as ++ [a]) = some s' ↔ ∃ t, run s as = some t ∧ step t a = some s' := by
  rw [run_append]
  cases h : run s as with
  | none => simp
  | some t =>
    cases h2 : step t a <;> simp [run, h2]

/-- A property of states kept by every step holds after every execution from a state
that has it. -/
theorem run_invariant (P : State → Prop)
    (hstep : ∀ s a s', P s → step s a = some s' → P s') :
    ∀ (as : List Action) (s s' : State), P s → run s as = some s' → P s' := by
  intro as
  induction as with
  | nil => intro s s' hP h; simp [run] at h; exact h ▸ hP
  | cons a as ih =>
    intro s s' hP h
    simp only [run] at h
    cases h1 : step s a with
    | none => simp [h1] at h
    | some t =>
      simp [h1] at h
      exact ih t s' (hstep s a t hP h1) h

/-- A property relating an execution to the state it reaches, which holds of the empty
execution and is kept when one more action is appended, holds of every execution. -/
theorem run_invariant_trace (P : List Action → State → Prop) (h0 : P [] init)
    (hstep : ∀ as s a s', P as s → step s a = some s' → P (as ++ [a]) s') :
    ∀ (as : List Action) (s : State), run init as = some s → P as s := by
  intro as
  induction as using List.reverseRecOn with
  | nil => intro s h; simp [run] at h; exact h ▸ h0
  | append_singleton as a ih =>
    intro s h
    obtain ⟨t, ht, hs⟩ := (run_snoc init s as a).1 h
    exact hstep as t a s (ih t ht) hs

/-- Nothing happens once the process has ended. -/
theorem run_halted (s t : State) (as : List Action) (hs : s.halted = true)
    (h : run s as = some t) : as = [] ∧ t = s := by
  cases as with
  | nil => simp [run] at h; exact ⟨rfl, h.symm⟩
  | cons a as => simp [run, step, hs] at h

/-! ## Lists of messages -/

theorem textPayloads_append (fs gs : List Frame) :
    textPayloads (fs ++ gs) = textPayloads fs ++ textPayloads gs := by
  induction fs with
  | nil => simp [textPayloads]
  | cons f fs ih => cases f <;> simp [textPayloads, ih]

theorem textPayloads_map_text (ds : List Bytes) : textPayloads (ds.map Frame.text) = ds := by
  induction ds with
  | nil => simp [textPayloads]
  | cons d ds ih => simp [textPayloads, ih]

theorem countP_isClose_map_text (ds : List Bytes) :
    (ds.map Frame.text).countP Frame.isClose = 0 := by
  induction ds with
  | nil => simp
  | cons d ds ih => simp [List.countP_cons, ih, Frame.isClose]

theorem chunksRead_snoc (as : List Action) (a : Action) :
    chunksRead (as ++ [a]) = chunksRead as ++ chunksRead [a] := by
  induction as with
  | nil => simp [chunksRead]
  | cons b as ih =>
    cases b with
    | stdinRead data err => cases err <;> simp [chunksRead, ih]
    | _ => simp [chunksRead, ih]

theorem received_snoc (as : List Action) (a : Action) :
    received (as ++ [a]) = received as ++ received [a] := by
  induction as with
  | nil => simp [received]
  | cons b as ih =>
    cases b with
    | connRead r =>
      cases r with
      | none => simp [received, ih]
      | some p => simp [received, ih]
    | _ => simp [received, ih]

/-- The first `n` bytes of the buffer after a read of `n` bytes are the bytes read. -/
theorem take_buffer_after_read (data buffer : Bytes) :
    (data.take (min data.length 256) ++ buffer.drop (min data.length 256)).take
      (min data.length 256) = data.take 256 := by
  have h1 : (data.take (min data.length 256)).length = min data.length 256 := by
    simp
  rw [List.take_left' h1]
  by_cases h : data.length ≤ 256
  · rw [Nat.min_eq_left h, List.take_of_length_le (le_refl _), List.take_of_length_le h]
  · rw [Nat.min_eq_right (by omega)]

/-! ## C1: the close message -/

theorem textOnly_snoc (fs : List Frame) (b : Bytes) (h : textOnly fs) :
    textOnly (fs ++ [Frame.text b]) := by
  obtain ⟨ds, rfl⟩ := h
  exact ⟨ds ++ [b], by simp⟩

theorem closeLast_of_textOnly (fs : List Frame) (h : textOnly fs) : closeLast fs := by
  obtain ⟨ds, rfl⟩ := h
  exact ⟨ds, Or.inl rfl⟩

theorem closeLast_snoc_close (fs : List Frame) (h : textOnly fs) :
    closeLast (fs ++ [closeFrame]) := by
  obtain ⟨ds, rfl⟩ := h
  exact ⟨ds, Or.inr rfl⟩

theorem wireInv_step (s : State) (a : Action) (s' : State) (hP : WireInv s)
    (h : step s a = some s') : WireInv s' := by
  unfold step at h
  split at h
  · simp at h
  · cases a <;> simp only at h <;> (repeat' split at h) <;> simp at h <;> subst h <;>
      simp_all [WireInv]
    · exact ⟨closeLast_of_textOnly _ (textOnly_snoc _ _ hP.2), textOnly_snoc _ _ hP.2⟩
    · exact ⟨closeLast_of_textOnly _ (textOnly_snoc _ _ hP.2), textOnly_snoc _ _ hP.2⟩
    · exact closeLast_snoc_close _ hP.2
    · exact closeLast_snoc_close _ hP.2

theorem wireInv_init : WireInv init :=
  ⟨⟨[], Or.inl rfl⟩, fun _ => ⟨[], rfl⟩⟩

theorem wireInv_run (as : List Action) (s : State) (h : run init as = some s) : WireInv s :=
  run_invariant WireInv wireInv_step as init s wireInv_init h

/-- C1 (P3, at most one Close): after every execution (any interleaving of the three
goroutines, any outcome of each write), the messages passed to `c.WriteMessage` are
text messages followed by at most one close message: the number of close messages is
zero or one, and a close message has no message after it. -/
theorem close_at_most_once_and_last (as : List Action) (s : State)
    (h : run init as = some s) :
    (∃ ds : List Bytes,
        s.wire = ds.map Frame.text ∨ s.wire = ds.map Frame.text ++ [closeFrame]) ∧
      (s.wire.countP Frame.isClose = 0 ∨ s.wire.countP Frame.isClose = 1) ∧
      (∀ (pre : List Frame) (f : Frame) (post : List Frame),
        s.wire = pre ++ f :: post → f.isClose = true → post = []) := by
  have hw := (wireInv_run as s h).1
  refine ⟨hw, ?_, ?_⟩
  · obtain ⟨ds, hds | hds⟩ := hw
    · left; rw [hds]; exact countP_isClose_map_text ds
    · right
      rw [hds, List.countP_append, countP_isClose_map_text]
      simp [closeFrame, Frame.isClose]
  · intro pre f post hsplit hf
    have hmem : ∀ g ∈ pre ++ [f], ∀ ds : List Bytes, pre ++ [f] = ds.map Frame.text →
        g.isClose = false := by
      intro g hg ds hds
      rw [hds] at hg
      obtain ⟨d, _, rfl⟩ := List.mem_map.1 hg
      rfl
    obtain ⟨ds, hds | hds⟩ := hw
    · have hf' : f ∈ ds.map Frame.text := by
        rw [← hds, hsplit]; simp
      obtain ⟨d, _, rfl⟩ := List.mem_map.1 hf'
      simp [Frame.isClose] at hf
    · rcases List.eq_nil_or_concat post with hp | ⟨post', x, hp⟩
      · exact hp
      · exfalso
        subst hp
        rw [hds] at hsplit
        have h2 : ds.map Frame.text ++ [closeFrame] = (pre ++ f :: post') ++ [x] := by
          rw [hsplit]; simp
        have h3 := List.append_inj_left' h2 rfl
        have hf' : f ∈ ds.map Frame.text := by rw [h3]; simp
        obtain ⟨d, _, rfl⟩ := List.mem_map.1 hf'
        simp [Frame.isClose] at hf

/-- An interrupted session: one text message, then the close message, which is last. -/
theorem close_at_most_once_and_last_witness :
    ∃ s, run init interruptedSession = some s ∧
      s.wire = [Frame.text [104, 105], closeFrame] ∧
      (s.wire.countP Frame.isClose = 0 ∨ s.wire.countP Frame.isClose = 1) :=
  ⟨_, rfl, rfl, (close_at_most_once_and_last interruptedSession _ rfl).2.1⟩

/-! ## C2: order of the chunks -/

theorem undisturbed_snoc (as : List Action) (a : Action) :
    undisturbed (as ++ [a]) = (undisturbed as && !a.stops) := by
  simp [undisturbed, List.all_append]

theorem pipeInv_step (as : List Action) (s : State) (a : Action) (s' : State)
    (hP : PipeInv as s) (h : step s a = some s') : PipeInv (as ++ [a]) s' := by
  intro hq
  rw [undisturbed_snoc] at hq
  simp only [Bool.and_eq_true] at hq
  have hP' := hP hq.1
  have hq2 := hq.2
  clear hP hq
  rw [chunksRead_snoc]
  unfold step at h
  split at h
  · simp at h
  · cases a <;> simp only at h <;> (repeat' split at h) <;> simp at h <;> subst h <;>
      simp_all [Action.stops, chunksRead, mainPending, inputPending, textPayloads_append,
        textPayloads, take_buffer_after_read]
    exact Nat.min_comm _ _

theorem pipeInv_run (as : List Action) (s : State) (h : run init as = some s) :
    PipeInv as s := by
  refine run_invariant_trace PipeInv ?_ pipeInv_step as s h
  intro _
  simp [init, chunksRead, textPayloads, mainPending, inputPending]

theorem chunksRead_feed (rs : List (Bytes × Bool)) : chunksRead (feed rs) = okChunks rs := by
  induction rs with
  | nil => rfl
  | cons r rs ih =>
    obtain ⟨d, e⟩ := r
    cases e <;> simp [feed, chunksRead, okChunks, ih]

theorem undisturbed_feed (rs : List (Bytes × Bool)) : undisturbed (feed rs) = true := by
  induction rs with
  | nil => rfl
  | cons r rs ih =>
    obtain ⟨d, e⟩ := r
    cases e <;> simp_all [feed, undisturbed, Action.stops]

theorem okChunks_all_ok (chunks : List Bytes) (hlen : ∀ c ∈ chunks, c.length ≤ 256) :
    okChunks (chunks.map (fun c => (c, false))) = chunks := by
  induction chunks with
  | nil => rfl
  | cons c cs ih =>
    have hc : c.length ≤ 256 := hlen c (by simp)
    have hcs : ∀ c ∈ cs, c.length ≤ 256 := fun x hx => hlen x (by simp [hx])
    simp [okChunks, ih hcs, List.take_of_length_le hc]

/-- With the stdin goroutine at its read, the main loop at its `select` and the context
not cancelled, a sequence of read results is worked off: the failed reads leave no
trace but a log line, and each successful read is handed over and written, in order. -/
theorem run_feed (rs : List (Bytes × Bool)) :
    ∀ s : State, s.input = .read → s.main = .select → s.stdinContext = false →
      ∃ t, run s (feed rs) = some t ∧ t.input = .read ∧ t.main = .select ∧
        t.stdinContext = false ∧ t.stdinClosed = s.stdinClosed ∧
        t.forwarded = s.forwarded ++ okChunks rs ∧
        t.wire = s.wire ++ (okChunks rs).map Frame.text ∧
        t.terminal = s.terminal ∧ t.reader = s.reader := by
  induction rs with
  | nil => intro s hi hm hc; exact ⟨s, by simp [feed, run, okChunks, hi, hm, hc]⟩
  | cons r rs ih =>
    intro s hi hm hc
    obtain ⟨d, e⟩ := r
    cases e with
    | true =>
      obtain ⟨t, ht, h⟩ := ih
        { s with buffer := d.take (min d.length 256) ++ s.buffer.drop (min d.length 256),
                 log := s.log ++ [.stdinRead] } hi hm hc
      refine ⟨t, ?_, ?_⟩
      · simpa [feed, run, step, State.halted, hi, hm] using ht
      · simpa [okChunks] using h
    | false =>
      obtain ⟨t, ht, h⟩ := ih
        { s with buffer := d.take (min d.length 256) ++ s.buffer.drop (min d.length 256),
                 input := .read, main := .select,
                 forwarded := s.forwarded ++ [d.take 256],
                 wire := s.wire ++ [.text (d.take 256)] } rfl rfl hc
      refine ⟨t, ?_, ?_⟩
      · have hb := take_buffer_after_read d s.buffer
        simp only [feed, run, step, State.halted, hi, hm, hc]
        simp [hb]
        simpa [hc] using ht
      · simpa [okChunks] using h

/-- C2 (P1, order preservation; Scenario B): let `chunks` be a sequence of chunks, each of
at most 256 bytes (what one `os.Stdin.Read` can put into the buffer).  There is an
undisturbed execution (no interrupt signal, no read error on the connection, hence no
termination signal and no cancellation) in which exactly these chunks are read, and
after which the messages written are exactly one text message per chunk, in the order
of the reads.  And in every undisturbed execution in which exactly these chunks are
read, only text messages are written, and their payloads, followed by the chunk the
main loop is about to write and by the chunk the stdin goroutine is about to hand
over (if any), are the chunks read, in order; when no chunk is in flight the messages
written are exactly `chunks`. -/
theorem order_preserved (chunks : List Bytes) (hlen : ∀ c ∈ chunks, c.length ≤ 256) :
    (∃ as s, run init as = some s ∧ undisturbed as = true ∧ chunksRead as = chunks ∧
        s.wire = chunks.map Frame.text) ∧
      (∀ as s, run init as = some s → undisturbed as = true → chunksRead as = chunks →
        s.wire = (textPayloads s.wire).map Frame.text ∧
        textPayloads s.wire ++ (mainPending s.main ++ inputPending s.buffer s.input) = chunks ∧
        (s.input = .read → s.main = .select → s.wire = chunks.map Frame.text)) := by
  constructor
  · obtain ⟨t, ht, h⟩ := run_feed (chunks.map (fun c => (c, false)))
      { init with input := .read, termState := some 0, terminal := [.makeRaw 0] } rfl rfl rfl
    refine ⟨.makeRaw (some 0) :: feed (chunks.map (fun c => (c, false))), t, ?_, ?_, ?_, ?_⟩
    · simpa [run, step, State.halted, init] using ht
    · simpa [undisturbed, Action.stops] using undisturbed_feed (chunks.map (fun c => (c, false)))
    · simp [chunksRead, chunksRead_feed, okChunks_all_ok chunks hlen]
    · have := h.2.2.2.2.2.1
      simpa [okChunks_all_ok chunks hlen, init] using this
  · intro as s hrun hq hchunks
    have hp := pipeInv_run as s hrun hq
    have hw := (wireInv_run as s hrun).2 (by
      rcases hp.2.2.2.2.2.1 with h | ⟨b, h⟩
      · exact Or.inl h
      · exact Or.inr (Or.inl ⟨b, h⟩))
    obtain ⟨ds, hds⟩ := hw
    have hchain := hp.2.2.2.2.2.2.2
    rw [hchunks] at hchain
    refine ⟨?_, hchain.symm, ?_⟩
    · rw [hds, textPayloads_map_text]
    · intro hi hm
      rw [hi, hm] at hchain
      simp [mainPending, inputPending] at hchain
      rw [hds, textPayloads_map_text] at hchain
      rw [hds, hchain]

/-- Scenario B: the chunks `a`, `b`, `c` are written as three text messages in that order. -/
theorem order_preserved_witness :
    (∃ as s, run init as = some s ∧ undisturbed as = true ∧ chunksRead as = scenarioB ∧
        s.wire = [Frame.text [97], Frame.text [98], Frame.text [99]]) ∧
      (∀ as s, run init as = some s → undisturbed as = true → chunksRead as = scenarioB →
        s.wire = (textPayloads s.wire).map Frame.text ∧
        textPayloads s.wire ++ (mainPending s.main ++ inputPending s.buffer s.input)
          = scenarioB ∧
        (s.input = .read → s.main = .select →
          s.wire = [Frame.text [97], Frame.text [98], Frame.text [99]])) :=
  order_preserved scenarioB (by decide)

/-! ## C3: what is written to standard output -/

theorem streamInv_step (as : List Action) (s : State) (a : Action) (s' : State)
    (hP : StreamInv as s) (h : step s a = some s') : StreamInv (as ++ [a]) s' := by
  unfold StreamInv at hP ⊢
  rw [received_snoc]
  unfold step at h
  split at h
  · simp at h
  · cases a <;> simp only at h <;> (repeat' split at h) <;> simp at h <;> subst h <;>
      simp_all [received, readerPending]

theorem received_append (as bs : List Action) :
    received (as ++ bs) = received as ++ received bs := by
  induction as with
  | nil => simp [received]
  | cons b as ih =>
    cases b with
    | connRead r =>
      cases r with
      | none => simp [received, ih]
      | some p => simp [received, ih]
    | _ => simp [received, ih]

theorem received_deliver (ms : List (Nat × Bytes)) :
    received (deliver ms) = ms.map Prod.snd := by
  induction ms with
  | nil => rfl
  | cons m ms ih => simp [deliver, received, ih]

/-- With the websocket read goroutine at its read and the process alive, every sequence
of arriving messages is worked off: each payload is written out, in order. -/
theorem run_deliver (ms : List (Nat × Bytes)) :
    ∀ s : State, s.reader = .readMessage → s.halted = false →
      ∃ t, run s (deliver ms) = some t ∧ t.reader = .readMessage ∧
        t.stdout = s.stdout ++ (ms.map Prod.snd).flatten ∧ t.wire = s.wire := by
  induction ms with
  | nil => intro s hr _; exact ⟨s, by simp [deliver, run, hr]⟩
  | cons m ms ih =>
    intro s hr hh
    obtain ⟨ty, payload⟩ := m
    have hh1 : ({ s with reader := .readMessage, stdout := s.stdout ++ payload } :
        State).halted = false := by
      simpa [State.halted] using hh
    obtain ⟨t, ht, h1, h2, h3⟩ := ih _ rfl hh1
    refine ⟨t, ?_, h1, ?_, h3⟩
    · have hmi : s.main ≠ .returned ∧ s.input ≠ .fatal := by
        simpa [State.halted] using hh
      simp only [deliver, run, step, hh, hr]
      simp [State.halted, hmi.1, hmi.2]
      exact ht
    · simpa using h2

/-- C3 (P2, passthrough fidelity; Scenario A), in every reachable state `s`.
Nothing is added, removed or changed: the bytes passed to `os.Stdout.Write`, followed
by the payload the websocket read goroutine has read and is about to write (if any),
are the concatenation, in order of arrival, of the payloads returned by the
successful `c.ReadMessage` calls; standard output alone is that concatenation
whenever no write is pending, in particular once a call has returned an error.
Every payload is written: when a write is pending and the process is alive, the write
can happen and appends exactly that payload; and when the goroutine is at its read
and the process is alive, every sequence `ms` of arriving messages, of whatever
message types, is worked off, after which standard output has grown by exactly the
concatenation of their payloads and holds the concatenation of all payloads received. -/
theorem passthrough_fidelity (as : List Action) (s : State) (h : run init as = some s) :
    s.stdout ++ readerPending s.reader = (received as).flatten ∧
      ((∀ m, s.reader ≠ .write m) → s.stdout = (received as).flatten) ∧
      (Action.connRead none ∈ as → s.stdout = (received as).flatten) ∧
      (∀ m, s.reader = .write m → s.halted = false →
        step s .stdoutWrite = some { s with reader := .readMessage, stdout := s.stdout ++ m }) ∧
      (∀ ms : List (Nat × Bytes), s.reader = .readMessage → s.halted = false →
        ∃ t, run init (as ++ deliver ms) = some t ∧ t.reader = .readMessage ∧
          received (as ++ deliver ms) = received as ++ ms.map Prod.snd ∧
          t.stdout = s.stdout ++ (ms.map Prod.snd).flatten ∧
          t.stdout = (received (as ++ deliver ms)).flatten) := by
  have hs : StreamInv as s :=
    run_invariant_trace StreamInv (by simp [StreamInv, received, init, readerPending])
      streamInv_step as s h
  unfold StreamInv at hs
  have hw : (∀ m, s.reader ≠ .write m) → s.stdout = (received as).flatten := by
    intro hw
    rw [hs.1]
    cases hr : s.reader with
    | write m => exact absurd hr (hw m)
    | _ => simp [readerPending]
  refine ⟨hs.1.symm, hw, fun hmem => hw (hs.2 hmem).2, ?_, ?_⟩
  · intro m hr hh
    simp [step, hh, hr]
  · intro ms hr hh
    obtain ⟨t, ht, h1, h2, _⟩ := run_deliver ms s hr hh
    have hrun : run init (as ++ deliver ms) = some t := by
      rw [run_append, h]; simpa using ht
    have hrec : received (as ++ deliver ms) = received as ++ ms.map Prod.snd := by
      rw [received_append, received_deliver]
    refine ⟨t, hrun, h1, hrec, h2, ?_⟩
    rw [h2, hrec, hw (by intro m hm; rw [hr] at hm; cases hm)]
    simp

/-- Scenario A: the payload `hello` arrives and exactly its five bytes are written out;
and two messages arriving one after the other are both written out, in order. -/
theorem passthrough_fidelity_witness :
    (∃ s, run init scenarioA = some s ∧ s.stdout = [104, 101, 108, 108, 111] ∧
      s.stdout = (received scenarioA).flatten) ∧
      (∃ t, run init ([] ++ deliver twoMessages) = some t ∧
        t.stdout = [104, 101, 108, 108, 111, 33]) :=
  ⟨⟨_, rfl, rfl, (passthrough_fidelity scenarioA _ rfl).2.2.1 (by simp [scenarioA])⟩,
    by
      obtain ⟨t, h1, _, _, h4, _⟩ :=
        (passthrough_fidelity [] init rfl).2.2.2.2 twoMessages rfl rfl
      exact ⟨t, h1, h4⟩⟩

/-! ## C4: the termination signal -/

theorem cancelInv_step (s : State) (a : Action) (s' : State) (hP : CancelInv s)
    (h : step s a = some s') : CancelInv s' := by
  unfold step at h
  split at h
  · simp at h
  · cases a <;> simp only at h <;> (repeat' split at h) <;> simp at h <;> subst h <;>
      simp_all [CancelInv]

theorem cancelInv_run (as : List Action) (s : State) (h : run init as = some s) :
    CancelInv s :=
  run_invariant CancelInv cancelInv_step as init s (by simp [CancelInv, init]) h

/-- C4 (Scenario D, P4): in every reachable state in which the main loop is at its
`select`, `done` is closed and the process is alive, the main loop can take
`case <-done`; doing so it returns from `main` at once, writing nothing: the messages
written are the same as before, none of them is a close message, and after it no
action of any goroutine happens, so no message is ever written again. -/
theorem termination_signal_ends_sending (as : List Action) (s : State)
    (h : run init as = some s) (hm : s.main = .select) (hd : s.done = true)
    (hf : s.input ≠ .fatal) :
    ∃ t, step s .recvDone = some t ∧ t.main = .returned ∧ t.wire = s.wire ∧
      (∀ f ∈ t.wire, f.isClose = false) ∧
      (∀ a, step t a = none) ∧
      (∀ bs u, run t bs = some u → bs = [] ∧ u.wire = s.wire) := by
  have hh : s.halted = false := by simp [State.halted, hm, hf]
  refine ⟨{ s with main := .returned }, by simp [step, hh, hm, hd], rfl, rfl, ?_, ?_, ?_⟩
  · obtain ⟨ds, hds⟩ := (wireInv_run as s h).2 (Or.inl hm)
    intro f hfm
    simp only [hds] at hfm
    obtain ⟨d, _, rfl⟩ := List.mem_map.1 hfm
    rfl
  · intro a
    simp [step, State.halted]
  · intro bs u hu
    obtain ⟨hbs, hut⟩ := run_halted _ u bs (by simp [State.halted]) hu
    exact ⟨hbs, by rw [hut]⟩

/-- Scenario D: the connection fails; the main loop returns without writing anything. -/
theorem termination_signal_ends_sending_witness :
    ∃ s, run init remoteClosed = some s ∧
      ∃ t, step s .recvDone = some t ∧ t.main = .returned ∧ t.wire = [] ∧
        ∀ a, step t a = none := by
  obtain ⟨t, h1, h2, h3, _, h5, _⟩ :=
    termination_signal_ends_sending remoteClosed _ rfl rfl rfl (by decide)
  exact ⟨_, rfl, t, h1, h2, h3, h5⟩

/-! ## C5: returning from `main` -/

/-- C5 (shutdown barrier), the code at two executions.  When the connection fails and the
main loop takes `case <-done`, `main` has returned although the wait group counter is
1, the stdin goroutine is still at its read with the terminal in raw mode, and the
websocket read goroutine has not yet run `cancelStdin()`.  When an interrupt arrives
and the close message is written without error, `main` has returned although the
counter is 2 and both goroutines are still in their loops. -/
theorem main_returns_without_waiting :
    (∃ s, run init (remoteClosed ++ [.recvDone]) = some s ∧ s.main = .returned ∧
        s.wg = 1 ∧ s.input = .read ∧ s.reader = .cancelStdin ∧
        s.terminal = [.makeRaw 7]) ∧
      (∃ s, run init interruptAccepted = some s ∧ s.main = .returned ∧
        s.wg = 2 ∧ s.input = .read ∧ s.reader = .readMessage ∧
        s.terminal = [.makeRaw 7]) :=
  ⟨⟨_, rfl, rfl, rfl, rfl, rfl, rfl⟩, ⟨_, rfl, rfl, rfl, rfl, rfl, rfl⟩⟩

/-! ## C6: raw mode -/

theorem rawInv_step (as : List Action) (s : State) (a : Action) (s' : State)
    (hP : RawInv as s) (h : step s a = some s') : RawInv (as ++ [a]) s' := by
  unfold step at h
  split at h
  · simp at h
  · cases a <;> simp only at h <;> (repeat' split at h) <;> simp at h <;> subst h <;>
      simp_all [RawInv, TermInv, State.halted]
    all_goals first | assumption | exact hP.2.1 | skip
    · intro h hm
      rcases hm with hm | rfl
      · have h1 := hP.2.1 h hm
        rw [hP.1.2] at h1
        cases h1
      · rfl
    · intro h hm
      have h1 := hP.2.1 h hm
      rw [hP.1.2] at h1
      cases h1

theorem rawInv_run (as : List Action) (s : State) (h : run init as = some s) :
    RawInv as s :=
  run_invariant_trace RawInv (by simp [RawInv, TermInv, init]) rawInv_step as s h

/-- What holds of the terminal whenever it holds at all: after a successful
`terminal.MakeRaw` that returned `hd`, the terminal mode changes made are that
`MakeRaw` alone, or that `MakeRaw` followed by one `terminal.Restore` of `hd`, the
latter exactly when the stdin goroutine has returned; after a failed
`terminal.MakeRaw` no change is made at all. -/
theorem restore_only_after_return (as : List Action) (s : State)
    (h : run init as = some s) :
    (∀ hd, Action.makeRaw (some hd) ∈ as →
        (s.terminal = [.makeRaw hd] ∨ s.terminal = [.makeRaw hd, .restore hd]) ∧
        (s.input = .wgDone ∨ s.input = .exited ↔
          s.terminal = [.makeRaw hd, .restore hd])) ∧
      (Action.makeRaw none ∈ as → s.terminal = [] ∧ s.input = .fatal) := by
  obtain ⟨ht, hsome, hnone⟩ := rawInv_run as s h
  constructor
  · intro hd hmem
    have hts := hsome hd hmem
    unfold TermInv at ht
    cases hi : s.input <;> simp_all
  · intro hmem
    have hi := hnone hmem
    unfold TermInv at ht
    simp_all

theorem healthyInv_step (as : List Action) (s : State) (a : Action) (s' : State)
    (hP : HealthyInv as s) (h : step s a = some s') : HealthyInv (as ++ [a]) s' := by
  intro hq
  have hq1 : Action.connRead none ∉ as := fun hm => hq (by simp [hm])
  have hq2 : a ≠ Action.connRead none := fun hm => hq (by simp [hm])
  have hP' := hP hq1
  clear hP hq
  unfold step at h
  split at h
  · simp at h
  · cases a <;> simp only at h <;> (repeat' split at h) <;> simp at h <;> subst h <;>
      simp_all

theorem healthyInv_run (as : List Action) (s : State) (h : run init as = some s) :
    HealthyInv as s :=
  run_invariant_trace HealthyInv (by intro _; simp [init]) healthyInv_step as s h

/-- C6 (P5, resource release), the code on the executions that end with the terminal in
raw mode.  When an interrupt arrives and the close message is written without error,
and when the connection fails and the main loop takes `case <-done`, `main` has
returned with the stdin goroutine still at its read: `terminal.MakeRaw` has returned
the mode 7, `terminal.Restore` has not been called, and since the process has ended
it never is.  More generally, in every execution without a read error on the
connection, however long, the stdin goroutine never returns and `terminal.Restore`
is never called: the only way out of its loop is the cancelled context.  The
deferred `terminal.Restore` itself does what it is there for: whenever the goroutine
is at it, it can run and restores the mode that `terminal.MakeRaw` returned, as in
the execution in which the goroutine does run to its end. -/
theorem raw_mode_left_at_process_end :
    (∃ s, run init interruptAccepted = some s ∧ s.main = .returned ∧ s.input = .read ∧
        s.termState = some 7 ∧ s.terminal = [.makeRaw 7] ∧
        ∀ bs u, run s bs = some u → u.terminal = [.makeRaw 7]) ∧
      (∃ s, run init (remoteClosed ++ [.recvDone]) = some s ∧ s.main = .returned ∧
        s.input = .read ∧ s.termState = some 7 ∧ s.terminal = [.makeRaw 7] ∧
        ∀ bs u, run s bs = some u → u.terminal = [.makeRaw 7]) ∧
      (∀ as s, run init as = some s → Action.connRead none ∉ as →
        (∀ hd, TermOp.restore hd ∉ s.terminal) ∧ s.input ≠ .restore ∧
        s.input ≠ .wgDone ∧ s.input ≠ .exited) ∧
      (∀ as s, run init as = some s → s.input = .restore → s.halted = false →
        ∃ hd, s.terminal = [.makeRaw hd] ∧
          step s .restore =
            some { s with input := .wgDone, terminal := [.makeRaw hd, .restore hd] }) ∧
      (∃ s, run init inputExits = some s ∧ s.input = .exited ∧
        s.terminal = [.makeRaw 7, .restore 7]) := by
  refine ⟨⟨_, rfl, rfl, rfl, rfl, rfl, ?_⟩, ⟨_, rfl, rfl, rfl, rfl, rfl, ?_⟩, ?_, ?_,
    ⟨_, rfl, rfl, rfl⟩⟩
  · intro bs u hu
    have hus := (run_halted _ u bs (by rfl) hu).2
    rw [hus]
    rfl
  · intro bs u hu
    have hus := (run_halted _ u bs (by rfl) hu).2
    rw [hus]
    rfl
  · intro as s h hq
    obtain ⟨_, _, hi⟩ := healthyInv_run as s h hq
    have ht := (rawInv_run as s h).1
    unfold TermInv at ht
    rcases hi with hi | hi | ⟨n, hi⟩ | ⟨c, hi⟩ | hi <;> simp_all
    all_goals
      obtain ⟨h0, _, ht0⟩ := ht
      intro hd
      simp [ht0]
  · intro as s h hi hh
    have ht := (rawInv_run as s h).1
    unfold TermInv at ht
    rw [hi] at ht
    obtain ⟨hd, h1, h2⟩ := ht
    exact ⟨hd, h2, by simp [step, hh, hi, h1, h2]⟩

/-! ## C7: a failed read of standard input -/

/-- C7 (Scenario E): in every state in which the stdin goroutine is at its read and the
process is alive, a read that returns an error leaves the goroutine at its read: it
hands nothing over, writes nothing, does not close the channel `stdin`, and logs one
line.  If moreover the main loop is at its `select` and the context is not cancelled,
then every sequence of read results can be worked off, after which the goroutine is
again at its read, the channel is as it was, and the chunks handed over and written
are exactly those of the successful reads, in order. -/
theorem read_error_is_not_fatal (s : State) (hi : s.input = .read)
    (hr : s.main ≠ .returned) :
    (∀ d, ∃ t, step s (.stdinRead d true) = some t ∧ t.input = .read ∧
        t.forwarded = s.forwarded ∧ t.stdinClosed = s.stdinClosed ∧ t.wire = s.wire ∧
        t.main = s.main ∧ t.log = s.log ++ [.stdinRead]) ∧
      (s.main = .select → s.stdinContext = false →
        ∀ rs, ∃ t, run s (feed rs) = some t ∧ t.input = .read ∧
          t.stdinClosed = s.stdinClosed ∧
          t.forwarded = s.forwarded ++ okChunks rs ∧
          t.wire = s.wire ++ (okChunks rs).map Frame.text) := by
  constructor
  · intro d
    refine ⟨{ s with buffer := d.take (min d.length 256) ++ s.buffer.drop (min d.length 256),
                     log := s.log ++ [.stdinRead] }, ?_, hi, rfl, rfl, rfl, rfl, rfl⟩
    simp [step, State.halted, hi, hr]
  · intro hm hc rs
    obtain ⟨t, h1, h2, _, _, h5, h6, h7, _⟩ := run_feed rs s hi hm hc
    exact ⟨t, h1, h2, h5, h6, h7⟩

/-- Scenario E: a failed read, then the chunk `a`: exactly `a` is handed over and written. -/
theorem read_error_is_not_fatal_witness :
    run init [.makeRaw (some 7)] = some rawState ∧
      ∃ t, run rawState (feed scenarioE) = some t ∧ t.input = .read ∧
        t.stdinClosed = false ∧ t.forwarded = [[97]] ∧ t.wire = [Frame.text [97]] :=
  ⟨rfl, (read_error_is_not_fatal rawState rfl (by decide)).2 rfl rfl scenarioE⟩

/-! ## C8: a failed write of a text message -/

/-- C8 (RemoteSendError is non-fatal): in every reachable state in which the main loop is
about to write the chunk `b` as a text message, a write that returns an error brings
the main loop back to its `select`; the message counts as written once, a line is
logged, no close message is written and nothing else changes.  If the stdin goroutine
is waiting to hand over a chunk `c`, the main loop can then take it and write it,
whatever the result of that write, and the messages written are the earlier ones,
then `b` once, then `c`, all of them text messages. -/
theorem write_error_is_not_fatal (as : List Action) (s : State) (b : Bytes)
    (h : run init as = some s) (hm : s.main = .writeText b) (hf : s.input ≠ .fatal) :
    step s (.writeMessage false) =
        some { s with main := .select, wire := s.wire ++ [.text b],
                      log := s.log ++ [.wsWrite] } ∧
      (∀ c ok, s.input = .send c →
        ∃ u, run s [.writeMessage false, .recvStdin, .writeMessage ok] = some u ∧
          u.main = .select ∧ u.wire = s.wire ++ [.text b, .text c] ∧
          u.forwarded = s.forwarded ++ [c] ∧ ∀ f ∈ u.wire, f.isClose = false) := by
  have hh : s.halted = false := by simp [State.halted, hm, hf]
  constructor
  · simp [step, hh, hm]
  · intro c ok hc
    obtain ⟨ds, hds⟩ := (wireInv_run as s h).2 (Or.inr (Or.inl ⟨b, hm⟩))
    refine ⟨{ s with main := .select, input := .read,
                     wire := s.wire ++ [.text b, .text c],
                     forwarded := s.forwarded ++ [c],
                     log := if ok then s.log ++ [.wsWrite]
                            else s.log ++ [.wsWrite] ++ [.wsWrite] }, ?_, rfl, rfl, rfl, ?_⟩
    · cases ok <;> simp [run, step, State.halted, hm, hc]
    · intro f hfm
      simp only [hds, List.mem_append, List.mem_map, List.mem_cons, List.mem_singleton,
        List.not_mem_nil, or_false] at hfm
      rcases hfm with ⟨d, _, rfl⟩ | rfl | rfl <;> rfl

/-- The write of `a` fails; the waiting chunk `b` is then written, and `a` is not repeated. -/
theorem write_error_is_not_fatal_witness :
    ∃ s, run init writePending = some s ∧ s.main = .writeText [97] ∧
      ∃ u, run s [.writeMessage false, .recvStdin, .writeMessage true] = some u ∧
        u.main = .select ∧ u.wire = [Frame.text [97], Frame.text [98]] := by
  obtain ⟨u, h1, h2, h3, _⟩ :=
    (write_error_is_not_fatal writePending _ [97] rfl rfl (by decide)).2 [98] true rfl
  exact ⟨_, rfl, rfl, u, h1, h2, h3⟩

/-! ## C9: who cancels the context -/

theorem receivesNoMore_step (s0 s : State) (a : Action) (s' : State)
    (hP : ReceivesNoMore s0 s) (h : step s a = some s') : ReceivesNoMore s0 s' := by
  unfold step at h
  split at h
  · simp at h
  · cases a <;> simp only at h <;> (repeat' split at h) <;> simp at h <;> subst h <;>
      simp_all [ReceivesNoMore]

/-- C9, the claim at an interrupt: the main loop leaves its `select` on an interrupt and
is about to write the close message, the connection being healthy (the websocket read
goroutine is at its read); the context is not cancelled, and the stdin goroutine,
polling it after its next read, does not find it cancelled: it takes the default
branch and is in the send of line 106. -/
theorem interrupt_leaves_context_uncancelled :
    ∃ s t u, run init [.makeRaw (some 7), .sigint] = some s ∧ s.main = .select ∧
      step s .recvInterrupt = some t ∧ t.main = .writeClose ∧ t.reader = .readMessage ∧
      t.stdinContext = false ∧
      run t [.stdinRead [97] false, .pollContext] = some u ∧
      u.input = .send [97] ∧ u.stdinContext = false :=
  ⟨_, _, _, rfl, rfl, rfl, rfl, rfl, rfl, rfl, rfl, rfl⟩

/-- C9 as amended: the context is cancelled by the websocket read goroutine and by nothing
else.  After every execution the context is cancelled exactly when that goroutine has
ended (after a read error on the connection, and after `done` was closed); the only
action that changes the context is its deferred `cancelStdin()`, so no step of the
main loop does, whether it leaves its `select` by an interrupt or by `done`.  As long
as that goroutine has not ended, the poll of the stdin goroutine finds the context
not cancelled and takes the default branch, to the send of line 106.  And once the
main loop has left its `select` for the close message, for `wg.Wait()` or for good,
it takes no chunk any more: whatever happens afterwards, the chunks handed over stay
the same and a stdin goroutine that is in its send stays there. -/
theorem context_cancelled_only_by_reader (as : List Action) (s : State)
    (h : run init as = some s) :
    (s.stdinContext = true ↔ s.reader = .exited) ∧
      (s.stdinContext = true → s.done = true) ∧
      (∀ a t, step s a = some t → t.stdinContext ≠ s.stdinContext → a = .cancelStdin) ∧
      (∀ n, s.reader ≠ .exited → s.input = .poll n → s.main ≠ .returned →
        step s .pollContext = some { s with input := .send (s.buffer.take n) }) ∧
      (s.main = .writeClose ∨ s.main = .wgWait ∨ s.main = .returned →
        ∀ bs u, run s bs = some u →
          (u.main = .writeClose ∨ u.main = .wgWait ∨ u.main = .returned) ∧
          u.forwarded = s.forwarded ∧ ∀ c, s.input = .send c → u.input = .send c) := by
  obtain ⟨hc, hd⟩ := cancelInv_run as s h
  refine ⟨hc, ?_, ?_, ?_, ?_⟩
  · intro hctx
    exact hd.2 (Or.inr (hc.1 hctx))
  · intro a t hstep hne
    unfold step at hstep
    split at hstep
    · simp at hstep
    · cases a <;> simp only at hstep <;> (repeat' split at hstep) <;> simp at hstep <;>
        subst hstep <;> simp_all
  · intro n hr hi hm
    have hctx : s.stdinContext = false := by
      cases hx : s.stdinContext with
      | false => rfl
      | true => exact absurd (hc.1 hx) hr
    simp [step, State.halted, hi, hm, hctx]
  · intro hm bs u hu
    exact run_invariant (ReceivesNoMore s) (receivesNoMore_step s) bs s u
      ⟨hm, rfl, fun _ hc => hc⟩ hu

/-- After an interrupt, with the connection healthy, the context is not cancelled; the
stdin goroutine is in its send, and when the close message has been written with an
error and the main loop waits in `wg.Wait()`, it is still there and nothing was
handed over. -/
theorem context_cancelled_only_by_reader_witness :
    ∃ s, run init interruptThenPoll = some s ∧ s.main = .writeClose ∧
      (s.stdinContext = true ↔ s.reader = .exited) ∧ s.stdinContext = false ∧
      ∃ u, run s [.writeMessage false, .sigint] = some u ∧
        u.forwarded = [] ∧ u.input = .send [97] := by
  obtain ⟨s, hs, hm, hctx, hin, hfw⟩ : ∃ s, run init interruptThenPoll = some s ∧
      s.main = .writeClose ∧ s.stdinContext = false ∧ s.input = .send [97] ∧
      s.forwarded = [] := ⟨_, rfl, rfl, rfl, rfl, rfl⟩
  obtain ⟨u, hu⟩ : ∃ u, run s [.writeMessage false, .sigint] = some u := by
    simp [run, step, State.halted, hm, hin]
  have hthm := context_cancelled_only_by_reader interruptThenPoll s hs
  obtain ⟨_, h2, h3⟩ := hthm.2.2.2.2 (Or.inl hm) _ u hu
  exact ⟨s, hs, hm, hthm.1, hctx, u, hu, h2.trans hfw, h3 [97] hin⟩

/-! ## C10: the closed channel `stdin` -/

/-- C10, the code at one execution.  While the write of the chunk `a` is pending, the
connection fails, the context is cancelled and the stdin goroutine, having read `b`,
closes the channel `stdin`; the pending write returns.  Then the main loop, at its
`select`, takes `case buf := <-stdin` from the closed channel, gets the empty string
and writes it: a second text message is written although one chunk only was ever
handed over, and it is written after the channel was closed. -/
theorem closed_stdin_yields_empty_text_message :
    ∃ s u, run init stdinClosedDuringWrite = some s ∧ s.main = .select ∧
      s.stdinClosed = true ∧ s.forwarded = [[97]] ∧ s.wire = [Frame.text [97]] ∧
      run s [.recvStdin, .writeMessage true] = some u ∧
      u.forwarded = [[97]] ∧ u.wire = [Frame.text [97], Frame.text []] ∧
      textPayloads u.wire = [[97], []] :=
  ⟨_, _, rfl, rfl, rfl, rfl, rfl, rfl, rfl, rfl, rfl⟩

end BBS
